import Mathlib

/-!
Verification of the retrieval-and-caching subsystem of `piazza_cli.py`
(`_alt_search_in_course`, `walk_thread` / `walk_children`, and the scroll
loop of `_show_post`), shallowly embedded in Lean.

Modelling conventions:
 - Python strings are `List Char`; machine time is `Nat` seconds.
 - The Piazza feed is an external collaborator; a run of the paginated walk
   sees a fixed sequence of page responses, one per requested offset
   (`offset = index * limit`).  Requests beyond the provided list behave as
   an empty feed.  `PageResult.err` models `net.get_feed` raising.
 - The sentence-transformer encoder is an external collaborator; it is
   modelled by a per-text encoding function plus a flag saying whether the
   encode call raises (the library guarantees one vector per input text).
 - Vectors are opaque; `Int` stands for a vector.
-/

/-- Python string, as a list of characters. -/
abbrev Str := List Char

/-- One feed post, with the fields `_alt_search_in_course` reads:
`nr`, `subject`, `preview.text` and `preview.html`. -/
structure Post where
  nr : Nat
  subject : Str
  previewText : Str
  previewHtml : Str
deriving Repr, DecidableEq, Inhabited

/-- Result of one `net.get_feed(limit=..., offset=...)` call: either the
page of posts it returned (`feed['feed']`), or an exception. -/
inductive PageResult where
  | ok (batch : List Post)
  | err
deriving Repr, DecidableEq

/-- The paginated walk of `_alt_search_in_course` (src lines 335-355):
starting at offset 0, request a page; stop on an exception or an empty
page without accumulating it; accumulate the page; stop after a page
shorter than `limit`; otherwise advance `offset` by `limit` and repeat.
The list argument holds the response for offset `0, limit, 2*limit, ...`
in order; running past it is an empty feed. -/
def fetchAll : List PageResult → Nat → List Post
  | [], _ => []
  | PageResult.err :: _, _ => []
  | PageResult.ok b :: rest, limit =>
    if b.isEmpty then []
    else if b.length < limit then b
    else b ++ fetchAll rest limit

/-- Spec-side description (follows the spec's words, for comparison with
`fetchAll`): the pages actually received by the walk, in order — all pages
up to and including the first short page, stopping before the first empty
page and at the first failing request. -/
def specPagesReceived : Nat → List PageResult → List (List Post)
  | _, [] => []
  | _, PageResult.err :: _ => []
  | limit, PageResult.ok b :: rest =>
    if b.isEmpty then []
    else if b.length < limit then [b]
    else b :: specPagesReceived limit rest

/-- Split a list into consecutive chunks of size `P` (a mock feed serving
`l` over pages of size `P`). -/
def chunkList (P : Nat) (l : List Post) : List (List Post) :=
  if h1 : l.isEmpty then []
  else if h2 : P = 0 then [l]
  else l.take P :: chunkList P (l.drop P)
termination_by l.length
decreasing_by
  have hl : l ≠ [] := by simpa [List.isEmpty_iff] using h1
  have : 0 < l.length := List.length_pos.mpr hl
  have : 0 < P := Nat.pos_of_ne_zero h2
  simp only [List.length_drop]
  omega

/-- One `POST_CACHE` entry: `{'posts': ..., 'embeddings': ... (optional), 'timestamp': ...}`. -/
structure CacheEntry where
  posts : List Post
  embeddings : Option (List Int)
  timestamp : Nat
deriving Repr, DecidableEq

/-- The global `POST_CACHE` dict, keyed by course `nid`. -/
abbrev Cache := List (Nat × CacheEntry)

/-- `POST_CACHE[nid] = entry` (Python dict assignment). -/
def setEntry (c : Cache) (nid : Nat) (e : CacheEntry) : Cache :=
  (nid, e) :: c.filter (fun p => p.1 != nid)

/-- `CACHE_EXPIRY_SECONDS = 3600` (src line 51). -/
def CACHE_EXPIRY_SECONDS : Nat := 3600

/-- `(time.time() - cached_data.get('timestamp', 0)) < CACHE_EXPIRY_SECONDS`
(src line 328).  Natural subtraction truncates at 0, which agrees with the
Python comparison: a timestamp in the future also counts as fresh. -/
def isFresh (e : CacheEntry) (now : Nat) : Bool :=
  now - e.timestamp < CACHE_EXPIRY_SECONDS

/-- The `all_posts` picked up from a fresh cache hit (src lines 323-330);
`[]` when the entry is absent or expired. -/
def freshPosts (c : Cache) (nid now : Nat) : List Post :=
  match c.lookup nid with
  | some e => if isFresh e now then e.posts else []
  | none => []

/-- The `post_embeddings` picked up from a fresh cache hit (src lines
325, 331-332): only read when the sentence model is available and the
entry is fresh. -/
def freshEmb (c : Cache) (nid now : Nat) (hasModel : Bool) : Option (List Int) :=
  match c.lookup nid with
  | some e => if isFresh e now && hasModel then e.embeddings else none
  | none => none

/-- Result of the cache-or-fetch phase of `_alt_search_in_course`
(src lines 322-364): the post set to search, the cached embeddings
carried along, the cache after the phase, and whether the paginated
walk ran. -/
structure FetchPhase where
  allPosts : List Post
  postEmb : Option (List Int)
  cache : Cache
  fetchedFlag : Bool
deriving Repr

/-- Cache-or-fetch phase (src lines 322-364).  A fresh hit reuses the
stored posts (and embeddings when the model is available) and issues no
page request.  Otherwise the paginated walk runs once with `limit = 50`;
if it yields nothing the function returns early without touching the
cache, else `POST_CACHE[nid] = {'posts': fetched, 'timestamp': now}`
replaces the entry (dropping any stored embeddings). -/
def getOrFetch (c : Cache) (nid : Nat) (hasModel : Bool) (now : Nat)
    (pages : List PageResult) : FetchPhase :=
  let allPosts0 := freshPosts c nid now
  let postEmb0 := freshEmb c nid now hasModel
  if allPosts0.isEmpty then
    let fetched := fetchAll pages 50
    if fetched.isEmpty then ⟨[], postEmb0, c, true⟩
    else ⟨fetched, postEmb0, setEntry c nid ⟨fetched, none, now⟩, true⟩
  else ⟨allPosts0, postEmb0, c, false⟩

/-- The literal four-character separator `"\\n\\n"` from src line 406 (the
Python source writes a doubly-escaped string, so the characters are
backslash, n, backslash, n — none of them whitespace). -/
def sepBackslashN : Str := ['\\', 'n', '\\', 'n']

/-- `combined_text = subject + "\\n\\n" + content_preview_text` where
`content_preview_text = html_to_markdown(preview.html) if preview.html
else ''` (src lines 395-406).  `h2m` is the external HTML converter. -/
def combinedText (h2m : Str → Str) (p : Post) : Str :=
  p.subject ++ sepBackslashN ++ (if p.previewHtml.isEmpty then [] else h2m p.previewHtml)

/-- `if combined_text.strip():` (src line 407): Python `strip()` yields a
truthy string iff some character is not whitespace. -/
def textOK (h2m : Str → Str) (p : Post) : Bool :=
  (combinedText h2m p).any (fun ch => !ch.isWhitespace)

/-- `posts_for_results` (src lines 376-410): the posts whose combined text
survives the strip test, in feed order. -/
def postsForResults (h2m : Str → Str) (posts : List Post) : List Post :=
  posts.filter (textOK h2m)

/-- `post_texts_for_embedding` (src lines 376-410). -/
def postTexts (h2m : Str → Str) (posts : List Post) : List Str :=
  (postsForResults h2m posts).map (combinedText h2m)

/-- The recompute condition of src line 418:
`post_embeddings is None or len(post_embeddings) != len(post_texts_for_embedding)`.
Exactly the condition tested inside `ensureEmbeddings`. -/
def needRecompute (postEmb : Option (List Int)) (texts : List Str) : Bool :=
  match postEmb with
  | none => true
  | some v => v.length != texts.length

/-- Embedding reuse-or-recompute (src lines 417-423): recompute in full iff
no embeddings were carried from the cache or their count differs from the
text count; a failing encode call raises (`Except.error`).  The second
component records whether a recompute happened. -/
def ensureEmbeddings (encodeDoc : Str → Int) (encodeDocsFail : Bool)
    (postEmb : Option (List Int)) (texts : List Str) :
    Except Unit (List Int × Bool) :=
  let needRecompute : Bool :=
    match postEmb with
    | none => true
    | some v => v.length != texts.length
  if needRecompute then
    if encodeDocsFail then Except.error ()
    else Except.ok (texts.map encodeDoc, true)
  else Except.ok (postEmb.getD [], false)

/-- Cache update after recomputing embeddings (src lines 424-429): if the
course is in `POST_CACHE`, set its `embeddings` and refresh `timestamp`;
otherwise store a new entry holding `posts_for_results`. -/
def attachVectors (c : Cache) (nid : Nat) (pfr : List Post)
    (embs : List Int) (now : Nat) : Cache :=
  match c.lookup nid with
  | some e => setEntry c nid ⟨e.posts, some embs, now⟩
  | none => setEntry c nid ⟨pfr, some embs, now⟩

/-- Similarity score between the query vector and a post vector.  Stand-in
for the external cosine similarity; its exact values are irrelevant to the
claims. -/
def similarity (q v : Int) : Int := -((q - v) * (q - v))

/-- Insert a `(index, score)` hit into a descending-score list, keeping
ascending index among equal scores. -/
def insertHit (x : Nat × Int) : List (Nat × Int) → List (Nat × Int)
  | [] => [x]
  | y :: ys =>
    if x.2 > y.2 || (x.2 == y.2 && x.1 ≤ y.1) then x :: y :: ys
    else y :: insertHit x ys

/-- Sort hits by descending score, ties by ascending original index. -/
def sortHits : List (Nat × Int) → List (Nat × Int)
  | [] => []
  | x :: xs => insertHit x (sortHits xs)

/-- Modelled from the spec: `util.semantic_search(query_embedding,
post_embeddings, top_k=...)` is external library code (sentence
transformers), absent from src; per the spec it returns `(index, score)`
hits sorted by descending similarity, ties broken by ascending index, and
at most `top_k` of them. -/
def semanticSearchHits (qv : Int) (vecs : List Int) (topK : Nat) : List (Nat × Int) :=
  (sortHits (vecs.enum.map (fun p => (p.1, similarity qv p.2)))).take topK

/-- All external inputs of one `_alt_search_in_course` run: course id,
query, wall clock, the feed pages, model availability, the HTML converter,
and the encoder collaborator (per-text vector plus raise flags). -/
structure SearchArgs where
  nid : Nat
  query : Str
  now : Nat
  pages : List PageResult
  hasModel : Bool
  h2m : Str → Str
  encodeDoc : Str → Int
  encodeDocsFail : Bool
  encodeQueryVec : Str → Int
  encodeQueryFail : Bool

/-- Semantic branch of `_alt_search_in_course` (src lines 366-439): build
the filtered texts, reuse or recompute embeddings (updating the cache on
recompute), encode the query, rank with `top_k = 30`, and map hit indices
back to `posts_for_results`.  An encoder exception escapes as
`Except.error` with the cache mutations made so far kept. -/
def semanticPhase (c : Cache) (a : SearchArgs) (allPosts : List Post)
    (postEmb : Option (List Int)) : Cache × Except Unit (List Post) :=
  let pfr := postsForResults a.h2m allPosts
  let texts := postTexts a.h2m allPosts
  if texts.isEmpty then (c, Except.ok [])
  else
    match ensureEmbeddings a.encodeDoc a.encodeDocsFail postEmb texts with
    | Except.error _ => (c, Except.error ())
    | Except.ok (embs, recomputed) =>
      let c2 := if recomputed then attachVectors c a.nid pfr embs a.now else c
      if a.encodeQueryFail then (c2, Except.error ())
      else
        let hits := semanticSearchHits (a.encodeQueryVec a.query) embs 30
        (c2, Except.ok (hits.map (fun h => pfr.getD h.1 default)))

/-- `search_text = subject + " " + preview.text` (src line 446). -/
def searchText (p : Post) : Str :=
  p.subject ++ (' ' :: p.previewText)

/-- Python `str.lower()`. -/
def pyLower (s : Str) : Str := s.map Char.toLower

/-- `startsWithStr n h` : `h` begins with `n`. -/
def startsWithStr : Str → Str → Bool
  | [], _ => true
  | _ :: _, [] => false
  | a :: as, b :: bs => (a == b) && startsWithStr as bs

/-- Python substring test `needle in hay`. -/
def containsStr (needle : Str) : Str → Bool
  | [] => needle.isEmpty
  | b :: bs => startsWithStr needle (b :: bs) || containsStr needle bs

/-- Keyword fallback (src lines 440-449): keep, in feed order, the posts
whose lower-cased `subject + " " + preview.text` contains the lower-cased
query. -/
def keywordSearch (posts : List Post) (q : Str) : List Post :=
  posts.filter (fun p => containsStr (pyLower q) (pyLower (searchText p)))

/-- The whole `_alt_search_in_course` run (src lines 315-449), restricted
to its search-relevant behaviour: empty query returns immediately; the
cache-or-fetch phase supplies the post set; an empty post set returns
early; then the semantic branch (model available) or the keyword fallback
produces the result list.  The returned cache is the state of the global
`POST_CACHE` when the call ends, including when an encoder exception
escapes. -/
def altSearch (c : Cache) (a : SearchArgs) : Cache × Except Unit (List Post) :=
  if a.query.isEmpty then (c, Except.ok [])
  else
    match getOrFetch c a.nid a.hasModel a.now a.pages with
    | ⟨allPosts, postEmb, c1, _⟩ =>
      if allPosts.isEmpty then (c1, Except.ok [])
      else if a.hasModel then semanticPhase c1 a allPosts postEmb
      else (c1, Except.ok (keywordSearch allPosts a.query))

/-- The states the global `POST_CACHE` can reach: empty at process start,
then transformed by `_alt_search_in_course` runs with arbitrary inputs. -/
inductive ReachCache : Cache → Prop where
  | nil : ReachCache []
  | step (c : Cache) (a : SearchArgs) : ReachCache c → ReachCache (altSearch c a).1

/-- Role tag attached by `render_entry` / `walk_thread` to each emitted
entry (src lines 582-595 and 744-759). -/
inductive Role where
  | op
  | student
  | instructor
  | followup
  | note
  | comment
deriving Repr, DecidableEq

/-- A node of the post tree returned by `net.get_post`: its `type` tag,
its content (abstracted to one string), and its `children` list in
feed-provided order. -/
inductive Node : Type where
  | mk (ty : String) (subject : String) (children : List Node)

/-- The `type` field. -/
def Node.ty : Node → String
  | Node.mk t _ _ => t

/-- The content field. -/
def Node.subject : Node → String
  | Node.mk _ s _ => s

/-- The `children` field. -/
def Node.children : Node → List Node
  | Node.mk _ _ c => c

/-- One flattened thread line: the role it was rendered with, its
indentation depth, and the node content it renders.  `render_entry` is
abstracted to emit one such line per entry; the claims concern order,
classification and depth, not the rich text inside a line. -/
structure RLine where
  role : Role
  depth : Nat
  subject : String
deriving Repr, DecidableEq

/-- Child-type classification of `walk_thread` (src lines 744-759):
`s_answer`, `i_answer`, `followup`, `note`, anything else is rendered as a
generic comment. -/
def classify (ty : String) : Role :=
  if ty = "s_answer" then Role.student
  else if ty = "i_answer" then Role.instructor
  else if ty = "followup" then Role.followup
  else if ty = "note" then Role.note
  else Role.comment

/-- `walk_children(children_data, current_indent)` (src lines 725-732):
each child is rendered as a comment at the current indent, then its own
children (when non-empty) at one deeper indent, then the walk continues
with its siblings. -/
def walkChildren : List Node → Nat → List RLine
  | [], _ => []
  | Node.mk _ s cs :: rest, ind =>
    ⟨Role.comment, ind, s⟩ ::
      ((if cs.isEmpty then [] else walkChildren cs (ind + 1)) ++ walkChildren rest ind)

/-- The loop over the direct children of the post inside `walk_thread`
(src lines 743-765): classify each child by its `type`, render it at
indent 1, then walk its children at indent 2. -/
def walkTop : List Node → List RLine
  | [] => []
  | Node.mk t s cs :: rest =>
    ⟨classify t, 1, s⟩ ::
      ((if cs.isEmpty then [] else walkChildren cs 2) ++ walkTop rest)

/-- `walk_thread(current_post_data)` (src lines 735-766): the original
post at indent 0, then its direct children as by `walkTop`. -/
def walkThread : Node → List RLine
  | Node.mk _ s cs =>
    ⟨Role.op, 0, s⟩ :: (if cs.isEmpty then [] else walkTop cs)

/-- Spec-side role assignment (follows the spec's words): the root is the
original post, a depth-1 entry is classified by its tag, anything deeper
is a comment. -/
def specRole (d : Nat) (ty : String) : Role :=
  if d = 0 then Role.op else if d = 1 then classify ty else Role.comment

mutual
/-- Spec-side flattening (follows the spec's words): emit the node at its
depth, then all of its children recursively one level deeper, siblings in
order. -/
def specWalk : Nat → Node → List RLine
  | d, Node.mk t s cs => ⟨specRole d t, d, s⟩ :: specWalkList (d + 1) cs

/-- Spec-side flattening of a sibling list, in order. -/
def specWalkList : Nat → List Node → List RLine
  | _, [] => []
  | d, c :: cs => specWalk d c ++ specWalkList d cs
end

/-- Spec-side flattening of a whole thread, root at depth 0. -/
def specFlatten (p : Node) : List RLine := specWalk 0 p

/-- `window_size = 12` (src line 770). -/
def windowSize : Nat := 12

/-- The `up` key handler (src lines 804-807): `if pos > 0: pos -= 1`. -/
def scrollUp (pos : Nat) : Nat :=
  if pos > 0 then pos - 1 else pos

/-- The `down` key handler (src lines 808-812): move down only while more
content remains below the window. -/
def scrollDown (total ws pos : Nat) : Nat :=
  if total > ws ∧ pos < total - ws then pos + 1 else pos

/-- The clamped scroll position computed by `render_window` (src lines
774-785). -/
def renderWindowPos (total ws pos : Nat) : Nat :=
  if total ≤ ws then 0
  else if pos > total - ws then total - ws
  else pos

/-- The visible slice computed by `render_window` (src lines 774-786):
everything when the content fits, else `thread_lines[pos:pos+ws]` at the
clamped position. -/
def renderVisible (lines : List RLine) (ws pos : Nat) : List RLine :=
  if lines.length ≤ ws then lines
  else (lines.drop (renderWindowPos lines.length ws pos)).take ws

/-- The scroll positions reachable in `_show_post` from the initial
`pos = 0` by any sequence of up/down key presses. -/
inductive ScrollReach (total ws : Nat) : Nat → Prop where
  | init : ScrollReach total ws 0
  | up {p : Nat} : ScrollReach total ws p → ScrollReach total ws (scrollUp p)
  | down {p : Nat} : ScrollReach total ws p → ScrollReach total ws (scrollDown total ws p)

/-- Well-formedness of one cache entry: non-empty post list, and stored
embeddings (when present) aligned one-to-one with the stored posts. -/
def EntryOK (e : CacheEntry) : Prop :=
  e.posts ≠ [] ∧ ∀ v, e.embeddings = some v → v.length = e.posts.length

/-- Well-formedness of the whole cache. -/
def CacheOK (c : Cache) : Prop :=
  ∀ nid e, c.lookup nid = some e → EntryOK e

/-- Eleven distinct posts, used to exhibit the top-k behaviour of the
semantic path. -/
def posts11 : List Post :=
  (List.range 11).map (fun i => ⟨i, ['p'], [], []⟩)

theorem fetchAll_eq_join_specPagesReceived (pages : List PageResult) (limit : Nat) :
    fetchAll pages limit = (specPagesReceived limit pages).flatten := by
  induction pages with
  | nil => simp [fetchAll, specPagesReceived]
  | cons hd rest ih =>
    cases hd with
    | err => simp [fetchAll, specPagesReceived]
    | ok b =>
      by_cases hb : b.isEmpty
      · simp [fetchAll, specPagesReceived, hb]
      · by_cases hs : b.length < limit
        · simp [fetchAll, specPagesReceived, hb, hs]
        · simp [fetchAll, specPagesReceived, hb, hs, ih]

theorem fetchAll_chunkList (P : Nat) (hP : 0 < P) :
    ∀ L : List Post, fetchAll ((chunkList P L).map PageResult.ok) P = L
  | L => by
    by_cases hL : L.isEmpty
    · have : L = [] := by simpa [List.isEmpty_iff] using hL
      subst this
      simp [chunkList, fetchAll]
    · have hL' : L ≠ [] := by simpa [List.isEmpty_iff] using hL
      have hP' : P ≠ 0 := Nat.pos_iff_ne_zero.mp hP
      rw [chunkList]
      simp only [hL, hP', dite_false, List.map_cons]
      have htake_ne : ¬ (L.take P).isEmpty := by
        simp [List.isEmpty_iff, List.take_eq_nil_iff, hL', hP']
      by_cases hshort : L.length < P
      · have htake : L.take P = L := List.take_of_length_le (Nat.le_of_lt hshort)
        have hlen : (L.take P).length < P := by
          rw [htake]; exact hshort
        simp [fetchAll, htake_ne, hlen, htake, hL', hshort]
      · have hlen : ¬ (L.take P).length < P := by
          rw [List.length_take]
          omega
        have hdec : (L.drop P).length < L.length := by
          rw [List.length_drop]
          have : 0 < L.length := List.length_pos.mpr hL'
          omega
        have ih := fetchAll_chunkList P hP (L.drop P)
        simp [fetchAll, htake_ne, hlen, ih, List.take_append_drop]
        all_goals omega
termination_by L => L.length
decreasing_by
  have h := List.length_pos.mpr hL'
  show (List.drop P L).length < L.length
  rw [List.length_drop]
  omega

theorem lookup_filter_ne (c : Cache) (k n : Nat) (hn : n ≠ k) :
    (c.filter (fun p => p.1 != k)).lookup n = c.lookup n := by
  induction c with
  | nil => rfl
  | cons hd rest ih =>
    obtain ⟨k1, v1⟩ := hd
    by_cases hk : k1 = k
    · subst hk
      have hne : (n == k1) = false := by simp [hn]
      simp [List.filter_cons, List.lookup, hne, ih]
    · have hkeep : (k1 != k) = true := by simp [hk]
      by_cases hnk : n = k1
      · subst hnk
        simp [List.filter_cons, hkeep, List.lookup]
      · have hne : (n == k1) = false := by simp [hnk]
        simp [List.filter_cons, hkeep, List.lookup, hne, ih]

theorem lookup_setEntry (c : Cache) (k n : Nat) (v : CacheEntry) :
    (setEntry c k v).lookup n = if n = k then some v else c.lookup n := by
  by_cases h : n = k
  · subst h
    simp [setEntry, List.lookup]
  · have hne : (n == k) = false := by simp [h]
    simp [setEntry, List.lookup, hne, lookup_filter_ne c k n h, h]

theorem textOK_true (h2m : Str → Str) (p : Post) : textOK h2m p = true := by
  refine List.any_eq_true.mpr ⟨'\\', ?_, by decide⟩
  simp [combinedText, sepBackslashN]

theorem postsForResults_eq (h2m : Str → Str) (posts : List Post) :
    postsForResults h2m posts = posts :=
  List.filter_eq_self.mpr (fun p _ => textOK_true h2m p)

theorem postTexts_length (h2m : Str → Str) (posts : List Post) :
    (postTexts h2m posts).length = posts.length := by
  simp [postTexts, postsForResults_eq]

theorem startsWithStr_iff (n h : Str) :
    startsWithStr n h = true ↔ ∃ r, h = n ++ r := by
  induction n generalizing h with
  | nil => simp [startsWithStr]
  | cons a as ih =>
    cases h with
    | nil => simp [startsWithStr]
    | cons b bs =>
      rw [startsWithStr, Bool.and_eq_true, beq_iff_eq, ih]
      constructor
      · rintro ⟨rfl, r, rfl⟩
        exact ⟨r, rfl⟩
      · rintro ⟨r, hr⟩
        injection hr with h1 h2
        exact ⟨h1.symm, r, h2⟩

theorem containsStr_iff (needle h : Str) :
    containsStr needle h = true ↔ ∃ l r, h = l ++ needle ++ r := by
  induction h with
  | nil =>
    rw [containsStr, List.isEmpty_iff]
    constructor
    · rintro rfl
      exact ⟨[], [], rfl⟩
    · rintro ⟨l, r, hl⟩
      rcases List.append_eq_nil.mp (List.append_eq_nil.mp hl.symm).1 with ⟨-, h2⟩
      exact h2.symm ▸ rfl
  | cons b bs ih =>
    rw [containsStr, Bool.or_eq_true, startsWithStr_iff, ih]
    constructor
    · rintro (⟨r, hr⟩ | ⟨l, r, hr⟩)
      · exact ⟨[], r, by simpa using hr⟩
      · exact ⟨b :: l, r, by simp [hr]⟩
    · rintro ⟨l, r, hr⟩
      cases l with
      | nil => exact Or.inl ⟨r, by simpa using hr⟩
      | cons x xs =>
        injection hr with h1 h2
        subst h1
        exact Or.inr ⟨xs, r, h2⟩

theorem walkChildren_spec : ∀ (l : List Node) (d : Nat), 2 ≤ d →
    walkChildren l d = specWalkList d l
  | [], _, _ => by simp [walkChildren, specWalkList]
  | Node.mk t s cs :: rest, d, hd => by
    have h1 := walkChildren_spec cs (d + 1) (by omega)
    have h2 := walkChildren_spec rest d hd
    have hd0 : d ≠ 0 := by omega
    have hd1 : d ≠ 1 := by omega
    have hrole : specRole d t = Role.comment := by simp [specRole, hd0, hd1]
    by_cases hcs : cs.isEmpty
    · have hnil : cs = [] := by simpa [List.isEmpty_iff] using hcs
      subst hnil
      simp [walkChildren, specWalkList, specWalk, hrole, h2]
    · simp [walkChildren, specWalkList, specWalk, hrole, h1, h2, hcs]
termination_by l _ _ => sizeOf l

theorem walkTop_spec : ∀ l : List Node, walkTop l = specWalkList 1 l
  | [] => by simp [walkTop, specWalkList]
  | Node.mk t s cs :: rest => by
    have h2 := walkTop_spec rest
    have h1 := walkChildren_spec cs 2 (by omega)
    have hrole : specRole 1 t = classify t := by simp [specRole]
    by_cases hcs : cs.isEmpty
    · have hnil : cs = [] := by simpa [List.isEmpty_iff] using hcs
      subst hnil
      simp [walkTop, specWalkList, specWalk, hrole, h2]
    · simp [walkTop, specWalkList, specWalk, hrole, h1, h2, hcs]

theorem getOrFetch_fresh (c : Cache) (nid : Nat) (hm : Bool) (now : Nat)
    (pages : List PageResult) (e : CacheEntry)
    (he : c.lookup nid = some e) (hne : e.posts ≠ []) (hfresh : isFresh e now = true) :
    getOrFetch c nid hm now pages =
      ⟨e.posts, if hm then e.embeddings else none, c, false⟩ := by
  have hfp : freshPosts c nid now = e.posts := by simp [freshPosts, he, hfresh]
  have hfe : freshEmb c nid now hm = (if hm then e.embeddings else none) := by
    cases hm <;> simp [freshEmb, he, hfresh]
  have hpe : ¬ (freshPosts c nid now).isEmpty := by
    simp [hfp, List.isEmpty_iff, hne]
  simp [getOrFetch, hfp, hfe, hpe, hne]

theorem getOrFetch_stale (c : Cache) (nid : Nat) (hm : Bool) (now : Nat)
    (pages : List PageResult) (h0 : freshPosts c nid now = []) :
    getOrFetch c nid hm now pages =
      if (fetchAll pages 50).isEmpty then ⟨[], freshEmb c nid now hm, c, true⟩
      else ⟨fetchAll pages 50, freshEmb c nid now hm,
            setEntry c nid ⟨fetchAll pages 50, none, now⟩, true⟩ := by
  simp [getOrFetch, h0]

theorem freshPosts_entry (c : Cache) (nid now : Nat)
    (h : freshPosts c nid now ≠ []) :
    ∃ e, c.lookup nid = some e ∧ freshPosts c nid now = e.posts := by
  unfold freshPosts at h ⊢
  cases hx : c.lookup nid with
  | some e =>
    rw [hx] at h
    by_cases hf : isFresh e now
    · exact ⟨e, rfl, by simp [hf]⟩
    · simp [hf] at h
  | none =>
    rw [hx] at h
    simp at h

theorem cacheOK_setEntry (c : Cache) (nid : Nat) (e : CacheEntry)
    (hc : CacheOK c) (he : EntryOK e) : CacheOK (setEntry c nid e) := by
  intro n e2 hn
  rw [lookup_setEntry] at hn
  by_cases h : n = nid
  · rw [if_pos h] at hn
    cases hn
    exact he
  · rw [if_neg h] at hn
    exact hc n e2 hn

theorem getOrFetch_cacheOK (c : Cache) (nid : Nat) (hm : Bool) (now : Nat)
    (pages : List PageResult) (hc : CacheOK c) :
    CacheOK (getOrFetch c nid hm now pages).cache := by
  unfold getOrFetch
  by_cases h0 : (freshPosts c nid now).isEmpty
  · by_cases h1 : (fetchAll pages 50).isEmpty
    · simpa [h0, h1] using hc
    · simp only [h0, h1, if_true, if_false, Bool.false_eq_true]
      refine cacheOK_setEntry c nid _ hc ⟨?_, ?_⟩
      · simpa [List.isEmpty_iff] using h1
      · intro v hv
        simp at hv
  · simpa [h0] using hc

theorem getOrFetch_entryPosts (c : Cache) (nid : Nat) (hm : Bool) (now : Nat)
    (pages : List PageResult)
    (hne : ¬ (getOrFetch c nid hm now pages).allPosts.isEmpty) :
    ∀ e2, (getOrFetch c nid hm now pages).cache.lookup nid = some e2 →
      e2.posts = (getOrFetch c nid hm now pages).allPosts := by
  by_cases h0 : (freshPosts c nid now).isEmpty
  · by_cases h1 : (fetchAll pages 50).isEmpty
    · exfalso
      apply hne
      simp [getOrFetch, h0, h1]
    · intro e2 he2
      simp only [getOrFetch, h0, h1, if_true, if_false, Bool.false_eq_true] at he2 ⊢
      rw [lookup_setEntry, if_pos rfl] at he2
      cases he2
      rfl
  · intro e2 he2
    simp only [getOrFetch, h0, if_false, Bool.false_eq_true] at he2 ⊢
    have hfp : freshPosts c nid now ≠ [] := by
      simpa [List.isEmpty_iff] using h0
    obtain ⟨e, he, heq⟩ := freshPosts_entry c nid now hfp
    rw [he] at he2
    cases he2
    exact heq.symm

theorem ensureEmbeddings_recomputed (enc : Str → Int) (fail : Bool)
    (postEmb : Option (List Int)) (texts : List Str) (embs : List Int)
    (h : ensureEmbeddings enc fail postEmb texts = Except.ok (embs, true)) :
    embs = texts.map enc := by
  cases postEmb with
  | none =>
    cases fail with
    | true => simp [ensureEmbeddings] at h
    | false =>
      simp [ensureEmbeddings] at h
      exact h.symm
  | some v =>
    by_cases hlen : v.length = texts.length
    · cases fail with
      | true => simp [ensureEmbeddings, hlen] at h
      | false => simp [ensureEmbeddings, hlen] at h
    · cases fail with
      | true => simp [ensureEmbeddings, bne_iff_ne, hlen] at h
      | false =>
        simp [ensureEmbeddings, bne_iff_ne, hlen] at h
        exact h.symm

theorem semanticPhase_cacheOK (c : Cache) (a : SearchArgs) (allPosts : List Post)
    (postEmb : Option (List Int)) (hc : CacheOK c) (hne : allPosts ≠ [])
    (hentry : ∀ e2, c.lookup a.nid = some e2 → e2.posts = allPosts) :
    CacheOK (semanticPhase c a allPosts postEmb).1 := by
  unfold semanticPhase
  have hpfr : postsForResults a.h2m allPosts = allPosts := postsForResults_eq a.h2m allPosts
  have hlen : (postTexts a.h2m allPosts).length = allPosts.length :=
    postTexts_length a.h2m allPosts
  have htexts : ¬ (postTexts a.h2m allPosts).isEmpty = true := by
    rw [List.isEmpty_iff]
    intro hx
    apply hne
    apply List.length_eq_zero.mp
    rw [← hlen, hx]
    rfl
  rw [if_neg htexts]
  cases hee : ensureEmbeddings a.encodeDoc a.encodeDocsFail postEmb (postTexts a.h2m allPosts) with
  | error err => exact hc
  | ok val =>
    obtain ⟨embs, recomputed⟩ := val
    cases recomputed with
    | false =>
      cases hqf : a.encodeQueryFail with
      | true => exact hc
      | false => exact hc
    | true =>
      have hembs : embs = (postTexts a.h2m allPosts).map a.encodeDoc :=
        ensureEmbeddings_recomputed _ _ _ _ _ hee
      have hembs_len : embs.length = allPosts.length := by
        rw [hembs, List.length_map, hlen]
      have hattach : CacheOK (attachVectors c a.nid (postsForResults a.h2m allPosts) embs a.now) := by
        unfold attachVectors
        cases hx : c.lookup a.nid with
        | some e2 =>
          refine cacheOK_setEntry c a.nid _ hc ⟨?_, ?_⟩
          · have hp := hentry e2 hx
            simpa [hp] using hne
          · intro v hv
            cases hv
            rw [hembs_len]
            simp [hentry e2 hx]
        | none =>
          refine cacheOK_setEntry c a.nid _ hc ⟨?_, ?_⟩
          · simpa [hpfr] using hne
          · intro v hv
            cases hv
            simp [hpfr, hembs_len]
      cases hqf : a.encodeQueryFail with
      | true => exact hattach
      | false => exact hattach

theorem altSearch_cacheOK (c : Cache) (a : SearchArgs) (hc : CacheOK c) :
    CacheOK (altSearch c a).1 := by
  unfold altSearch
  by_cases hq : a.query.isEmpty
  · rw [if_pos hq]
    exact hc
  · rw [if_neg hq]
    have hok := getOrFetch_cacheOK c a.nid a.hasModel a.now a.pages hc
    have hep := getOrFetch_entryPosts c a.nid a.hasModel a.now a.pages
    cases hgf : getOrFetch c a.nid a.hasModel a.now a.pages with
    | mk allPosts postEmb c1 flag =>
      rw [hgf] at hok hep
      show CacheOK
        ((if allPosts.isEmpty = true then (c1, Except.ok [])
          else if a.hasModel = true then semanticPhase c1 a allPosts postEmb
          else (c1, Except.ok (keywordSearch allPosts a.query))).1)
      by_cases hp : allPosts.isEmpty
      · rw [if_pos hp]
        exact hok
      · rw [if_neg hp]
        by_cases hm : a.hasModel
        · rw [if_pos hm]
          exact semanticPhase_cacheOK c1 a allPosts postEmb hok
            (by simpa [List.isEmpty_iff] using hp) (hep hp)
        · rw [if_neg hm]
          exact hok

theorem reach_cacheOK : ∀ c : Cache, ReachCache c → CacheOK c := by
  intro c h
  induction h with
  | nil =>
    intro nid e he
    simp [List.lookup] at he
  | step c a _ ih => exact altSearch_cacheOK c a ih

/-- Claim C2: the paginated walk requests pages at consecutive offsets
(0, P, 2P, ... by position in the response list) and returns exactly the
concatenation of the pages received, in order, stopping at the first page
that is empty or shorter than the page size; a failing page request stops
the walk and keeps what was accumulated instead of raising.  Over a mock
feed serving a post list in chunks of size P it returns that list intact —
no duplicates, no gaps. -/
theorem c2_page_fetch_walk :
    (∀ (pages : List PageResult) (limit : Nat),
      fetchAll pages limit = (specPagesReceived limit pages).flatten) ∧
    (∀ (L : List Post) (P : Nat), 0 < P →
      fetchAll ((chunkList P L).map PageResult.ok) P = L) :=
  ⟨fetchAll_eq_join_specPagesReceived, fun L P hP => fetchAll_chunkList P hP L⟩

/-- Witness for C2: three posts served in pages of two. -/
theorem c2_witness :
    fetchAll ((chunkList 2 [⟨1, [], [], []⟩, ⟨2, [], [], []⟩, ⟨3, [], [], []⟩]).map PageResult.ok) 2 =
      [⟨1, [], [], []⟩, ⟨2, [], [], []⟩, ⟨3, [], [], []⟩] :=
  c2_page_fetch_walk.2 [⟨1, [], [], []⟩, ⟨2, [], [], []⟩, ⟨3, [], [], []⟩] 2 (by decide)

/-- Claim C6: in the keyword fallback a post is kept iff the lower-cased
query is a substring of its lower-cased `subject + " " + preview.text`;
kept posts stay in original feed order (the result is a sublist of the
feed, no ranking); and with the model unavailable the search run returns
exactly this filter over the fetched post set. -/
theorem c6_keyword_fallback (posts : List Post) (q : Str) :
    (∀ p : Post, p ∈ keywordSearch posts q ↔
      (p ∈ posts ∧ ∃ l r, pyLower (searchText p) = l ++ pyLower q ++ r)) ∧
    (keywordSearch posts q).Sublist posts ∧
    (∀ (c : Cache) (a : SearchArgs), a.hasModel = false → a.query.isEmpty = false →
      (getOrFetch c a.nid a.hasModel a.now a.pages).allPosts.isEmpty = false →
      (altSearch c a).2 =
        Except.ok (keywordSearch (getOrFetch c a.nid a.hasModel a.now a.pages).allPosts a.query)) := by
  refine ⟨?_, List.filter_sublist posts, ?_⟩
  · intro p
    rw [keywordSearch, List.mem_filter, containsStr_iff]
  · intro c a hm hq hp
    unfold altSearch
    rw [if_neg (by simp [hq])]
    cases hgf : getOrFetch c a.nid a.hasModel a.now a.pages with
    | mk allPosts postEmb c1 flag =>
      rw [hgf] at hp
      show (if allPosts.isEmpty = true then (c1, Except.ok [])
            else if a.hasModel = true then semanticPhase c1 a allPosts postEmb
            else (c1, Except.ok (keywordSearch allPosts a.query))).2 =
        Except.ok (keywordSearch allPosts a.query)
      rw [if_neg (by simp [hp]), if_neg (by simp [hm])]

/-- Witness for C6: the post whose subject contains the query letter is
kept. -/
theorem c6_witness :
    (⟨1, ['h', 'i'], ['y', 'o'], []⟩ : Post) ∈
      keywordSearch [⟨1, ['h', 'i'], ['y', 'o'], []⟩] ['i'] :=
  ((c6_keyword_fallback [⟨1, ['h', 'i'], ['y', 'o'], []⟩] ['i']).1
    ⟨1, ['h', 'i'], ['y', 'o'], []⟩).mpr
    ⟨by decide, ⟨['h'], [' ', 'y', 'o'], by decide⟩⟩

/-- Claim C7: `walk_thread` emits the original post first at depth 0, then
each direct child in feed order at depth 1 classified by its tagged type
(student answer, instructor answer, followup, note, generic comment for
anything unrecognized), then that child's own descendants at depth 2 and
one more level per nesting step; it coincides with the deterministic
sibling-order-preserving spec traversal. -/
theorem c7_thread_flatten (p : Node) : walkThread p = specFlatten p := by
  cases p with
  | mk t s cs =>
    have hrole : specRole 0 t = Role.op := by simp [specRole]
    by_cases hcs : cs.isEmpty
    · have hnil : cs = [] := by simpa [List.isEmpty_iff] using hcs
      subst hnil
      simp [walkThread, specFlatten, specWalk, specWalkList, hrole]
    · simp [walkThread, specFlatten, specWalk, hrole, hcs, walkTop_spec]

/-- Claim C8: from the initial position 0, any sequence of up/down scroll
transitions keeps `0 ≤ top_index ≤ max 0 (total - window)`; when the
content fits in the window both transitions are no-ops and the visible
slice is the entire line list. -/
theorem c8_viewport_invariant (total ws pos : Nat) (h : ScrollReach total ws pos) :
    pos ≤ max 0 (total - ws) ∧
    (total ≤ ws → pos = 0 ∧ scrollUp pos = pos ∧ scrollDown total ws pos = pos ∧
      ∀ lines : List RLine, lines.length = total → renderVisible lines ws pos = lines) := by
  have key : pos ≤ total - ws ∧ (total ≤ ws → pos = 0) := by
    induction h with
    | init => exact ⟨Nat.zero_le _, fun _ => rfl⟩
    | up hp ih =>
      obtain ⟨ih1, ih2⟩ := ih
      refine ⟨?_, ?_⟩
      · unfold scrollUp
        split <;> omega
      · intro ht
        rw [ih2 ht]
        simp [scrollUp]
    | down hp ih =>
      obtain ⟨ih1, ih2⟩ := ih
      refine ⟨?_, ?_⟩
      · unfold scrollDown
        split <;> omega
      · intro ht
        rw [ih2 ht]
        have hno : ¬ (total > ws ∧ 0 < total - ws) := by omega
        simp [scrollDown, hno]
        omega
  obtain ⟨k1, k2⟩ := key
  constructor
  · simpa [Nat.zero_max] using k1
  · intro ht
    have h0 := k2 ht
    subst h0
    refine ⟨rfl, by simp [scrollUp], ?_, ?_⟩
    · have hno : ¬ (total > ws ∧ 0 < total - ws) := by omega
      simp [scrollDown, hno]
      omega
    · intro lines hl
      have hle : lines.length ≤ ws := by omega
      simp [renderVisible, hle]

/-- Witness for C8 at `total = 5` lines and the fixed `window_size = 12`. -/
theorem c8_witness : scrollUp 0 = 0 ∧ scrollDown 5 windowSize 0 = 0 := by
  have h := c8_viewport_invariant 5 windowSize 0 ScrollReach.init
  have h2 := h.2 (by decide)
  exact ⟨h2.2.1, h2.2.2.1⟩

/-- Claim C1 counterexample: with a stale entry (age exactly 3600 s) and a
failing first page request, the refetch runs but yields nothing, so the
old entry — old timestamp included — stays in place: no new entry with the
current timestamp replaces it, contrary to the claim. -/
theorem c1_counterexample :
    (getOrFetch [(7, ⟨[⟨1, ['a'], [], []⟩], none, 0⟩)] 7 false 3600 [PageResult.err]).fetchedFlag = true ∧
    (getOrFetch [(7, ⟨[⟨1, ['a'], [], []⟩], none, 0⟩)] 7 false 3600 [PageResult.err]).cache.lookup 7 =
      some ⟨[⟨1, ['a'], [], []⟩], none, 0⟩ ∧
    (getOrFetch [(7, ⟨[⟨1, ['a'], [], []⟩], none, 0⟩)] 7 false 3600 [PageResult.err]).cache.lookup 7 ≠
      some ⟨[⟨1, ['a'], [], []⟩], none, 3600⟩ :=
  ⟨rfl, rfl, by decide⟩

/-- Claim C1 (amended): a fresh cache entry (age strictly under 3600 s,
non-empty stored posts) is returned as-is — posts reused, embeddings
reused when the model is available — and no page walk runs; on a miss or
an expired entry the walk runs exactly once, and, provided it returned at
least one post, a new entry stamped with the current time replaces the old
one; an empty refetch leaves the cache unchanged. -/
theorem c1_cache_get_or_fetch_amended (c : Cache) (nid : Nat) (hm : Bool)
    (now : Nat) (pages : List PageResult) :
    (∀ e, c.lookup nid = some e → e.posts ≠ [] → isFresh e now = true →
      getOrFetch c nid hm now pages =
        ⟨e.posts, if hm then e.embeddings else none, c, false⟩) ∧
    (freshPosts c nid now = [] →
      (getOrFetch c nid hm now pages).fetchedFlag = true ∧
      (fetchAll pages 50 ≠ [] →
        (getOrFetch c nid hm now pages).cache =
          setEntry c nid ⟨fetchAll pages 50, none, now⟩) ∧
      (fetchAll pages 50 = [] → (getOrFetch c nid hm now pages).cache = c)) := by
  constructor
  · intro e he hne hfr
    exact getOrFetch_fresh c nid hm now pages e he hne hfr
  · intro h0
    rw [getOrFetch_stale c nid hm now pages h0]
    by_cases h1 : (fetchAll pages 50).isEmpty
    · have h1e : fetchAll pages 50 = [] := by simpa [List.isEmpty_iff] using h1
      exact ⟨by simp [h1], fun hcontra => absurd h1e hcontra, fun _ => by simp [h1]⟩
    · have h1e : fetchAll pages 50 ≠ [] := by simpa [List.isEmpty_iff] using h1
      exact ⟨by simp [h1], fun _ => by simp [h1], fun hcontra => absurd hcontra h1e⟩

/-- Witness for C1 (amended): a fresh hit is returned as stored, without
fetching, even though the feed would fail. -/
theorem c1_witness :
    getOrFetch [(5, ⟨[⟨2, ['b'], [], []⟩], some [9], 100⟩)] 5 true 101 [PageResult.err] =
      ⟨[⟨2, ['b'], [], []⟩], some [9], [(5, ⟨[⟨2, ['b'], [], []⟩], some [9], 100⟩)], false⟩ :=
  (c1_cache_get_or_fetch_amended [(5, ⟨[⟨2, ['b'], [], []⟩], some [9], 100⟩)] 5 true 101
      [PageResult.err]).1
    ⟨[⟨2, ['b'], [], []⟩], some [9], 100⟩ rfl (by decide) (by decide)

/-- Claim C4 counterexample: attaching vectors to an existing entry also
rewrites its timestamp (src line 427), so `fetched_at` is not preserved:
the entry stamped 100 comes out stamped 200. -/
theorem c4_counterexample :
    (attachVectors [(1, ⟨[⟨3, ['c'], [], []⟩], none, 100⟩)] 1 [] [5] 200).lookup 1 =
      some ⟨[⟨3, ['c'], [], []⟩], some [5], 200⟩ ∧
    (attachVectors [(1, ⟨[⟨3, ['c'], [], []⟩], none, 100⟩)] 1 [] [5] 200).lookup 1 ≠
      some ⟨[⟨3, ['c'], [], []⟩], some [5], 100⟩ :=
  ⟨rfl, by decide⟩

/-- Claim C4 (amended): attaching vectors to an existing entry keeps the
stored posts, replaces the vectors, sets `fetched_at` to the current time,
and leaves every other course's entry untouched. -/
theorem c4_attach_vectors_amended (c : Cache) (nid : Nat) (pfr : List Post)
    (embs : List Int) (now : Nat) (e : CacheEntry) (he : c.lookup nid = some e) :
    (attachVectors c nid pfr embs now).lookup nid = some ⟨e.posts, some embs, now⟩ ∧
    ∀ n, n ≠ nid → (attachVectors c nid pfr embs now).lookup n = c.lookup n := by
  unfold attachVectors
  rw [he]
  constructor
  · rw [lookup_setEntry, if_pos rfl]
  · intro n hn
    rw [lookup_setEntry, if_neg hn]

/-- Witness for C4 (amended). -/
theorem c4_witness :
    (attachVectors [(1, ⟨[⟨3, ['c'], [], []⟩], none, 100⟩)] 1 [] [7] 200).lookup 1 =
      some ⟨[⟨3, ['c'], [], []⟩], some [7], 200⟩ :=
  (c4_attach_vectors_amended [(1, ⟨[⟨3, ['c'], [], []⟩], none, 100⟩)] 1 [] [7] 200
    ⟨[⟨3, ['c'], [], []⟩], none, 100⟩ rfl).1

/-- Claim C10: every entry ever stored in the reachable cache holds a
non-empty post list, and a run whose refetch comes back empty (no fresh
hit available) returns empty with the cache untouched, so the next search
attempts a fresh fetch. -/
theorem c10_nonempty_cache_entries :
    (∀ c : Cache, ReachCache c → ∀ nid e, c.lookup nid = some e → e.posts ≠ []) ∧
    (∀ (c : Cache) (a : SearchArgs), freshPosts c a.nid a.now = [] →
      fetchAll a.pages 50 = [] → altSearch c a = (c, Except.ok [])) := by
  constructor
  · intro c hr nid e he
    exact (reach_cacheOK c hr nid e he).1
  · intro c a h0 h1
    unfold altSearch
    by_cases hq : a.query.isEmpty
    · rw [if_pos hq]
    · rw [if_neg hq]
      rw [getOrFetch_stale c a.nid a.hasModel a.now a.pages h0]
      simp [h1]

/-- Witness for C10: the entry created by one successful search holds its
non-empty post list, and an empty refetch leaves the empty cache empty. -/
theorem c10_witness :
    (⟨[⟨4, ['d'], [], []⟩], none, 0⟩ : CacheEntry).posts ≠ [] ∧
    altSearch [] ⟨7, ['q'], 0, [PageResult.err], false, id, fun _ => 0, false, fun _ => 0, false⟩ =
      ([], Except.ok []) := by
  constructor
  · exact c10_nonempty_cache_entries.1 _
      (ReachCache.step []
        ⟨7, ['q'], 0, [PageResult.ok [⟨4, ['d'], [], []⟩]], false, id, fun _ => 0, false, fun _ => 0, false⟩
        ReachCache.nil)
      7 _ rfl
  · exact c10_nonempty_cache_entries.2 []
      ⟨7, ['q'], 0, [PageResult.err], false, id, fun _ => 0, false, fun _ => 0, false⟩ rfl rfl

/-- Claim C5: in every reachable cache state, stored vectors are aligned
one-to-one with the same entry's stored posts (the strip filter never
drops a post, because the literal `"\\n\\n"` separator contains
non-whitespace backslashes, so the embedded text count always equals the
post count); and whenever carried vector counts disagree with the current
text/post count the embeddings are recomputed in one full batch, never
partially. -/
theorem c5_vector_count_invariant :
    (∀ c : Cache, ReachCache c → ∀ nid e, c.lookup nid = some e →
      ∀ v, e.embeddings = some v → v.length = e.posts.length) ∧
    (∀ (h2m : Str → Str) (enc : Str → Int) (posts : List Post) (v : List Int),
      v.length ≠ posts.length →
      ensureEmbeddings enc false (some v) (postTexts h2m posts) =
        Except.ok ((postTexts h2m posts).map enc, true)) := by
  constructor
  · intro c hr nid e he v hv
    exact (reach_cacheOK c hr nid e he).2 v hv
  · intro h2m enc posts v hvlen
    have hlen := postTexts_length h2m posts
    have hb : (v.length != (postTexts h2m posts).length) = true := by
      rw [hlen]
      simpa [bne_iff_ne] using hvlen
    simp [ensureEmbeddings, hb]

/-- Witness for C5: after one semantic search over eleven posts, the
stored vector count equals the stored post count; and a two-vector carry
against eleven posts triggers a full recompute. -/
theorem c5_witness :
    ((postTexts id posts11).map (fun _ => (0 : Int))).length = posts11.length ∧
    ensureEmbeddings (fun _ => (0 : Int)) false (some [1, 2]) (postTexts id posts11) =
      Except.ok ((postTexts id posts11).map (fun _ => (0 : Int)), true) := by
  constructor
  · exact c5_vector_count_invariant.1 _
      (ReachCache.step []
        ⟨1, ['q'], 0, [PageResult.ok posts11], true, id, fun _ => 0, false, fun _ => 0, false⟩
        ReachCache.nil)
      1 _ rfl _ rfl
  · exact c5_vector_count_invariant.2 id (fun _ => (0 : Int)) posts11 [1, 2] (by decide)

/-- Claim C3 (code bug): src line 435 calls the nearest-neighbor ranking
with `top_k=30` while the comment on that very line and the spec say top
10; a course of eleven candidate posts therefore yields eleven results,
above the claimed cap of ten. -/
theorem c3_topk_code_bug :
    (altSearch [] ⟨1, ['q'], 0, [PageResult.ok posts11], true, id, fun _ => 0, false, fun _ => 0, false⟩).2 =
      Except.ok posts11 ∧ 10 < posts11.length := by
  constructor
  · rfl
  · decide

/-- Claim C9 counterexample: with the model available and the document
encode call raising, the search run ends in the propagated exception, not
in the keyword-fallback result. -/
theorem c9_counterexample :
    (altSearch [] ⟨1, ['q'], 0, [PageResult.ok [⟨4, ['d'], [], []⟩]], true, id, fun _ => 0, true, fun _ => 0, false⟩).2 =
      Except.error () ∧
    Except.error () ≠ Except.ok (keywordSearch [⟨4, ['d'], [], []⟩] ['q']) := by
  refine ⟨rfl, ?_⟩
  intro h
  exact Except.noConfusion h

theorem ensureEmbeddings_eq (enc : Str → Int) (fail : Bool)
    (postEmb : Option (List Int)) (texts : List Str) :
    ensureEmbeddings enc fail postEmb texts =
      if needRecompute postEmb texts then
        (if fail then Except.error () else Except.ok (texts.map enc, true))
      else Except.ok (postEmb.getD [], false) := rfl

theorem postTexts_ne_empty (h2m : Str → Str) (posts : List Post) (h : posts ≠ []) :
    ¬ (postTexts h2m posts).isEmpty = true := by
  rw [List.isEmpty_iff]
  intro hx
  apply h
  apply List.length_eq_zero.mp
  rw [← postTexts_length h2m posts, hx]
  rfl

theorem altSearch_semantic (c : Cache) (a : SearchArgs)
    (hm : a.hasModel = true) (hq : a.query.isEmpty = false)
    (hp : (getOrFetch c a.nid a.hasModel a.now a.pages).allPosts.isEmpty = false) :
    altSearch c a =
      semanticPhase (getOrFetch c a.nid a.hasModel a.now a.pages).cache a
        (getOrFetch c a.nid a.hasModel a.now a.pages).allPosts
        (getOrFetch c a.nid a.hasModel a.now a.pages).postEmb := by
  unfold altSearch
  rw [if_neg (by simp [hq])]
  cases hgf : getOrFetch c a.nid a.hasModel a.now a.pages with
  | mk allPosts postEmb c1 flag =>
    rw [hgf] at hp
    show (if allPosts.isEmpty = true then (c1, Except.ok [])
          else if a.hasModel = true then semanticPhase c1 a allPosts postEmb
          else (c1, Except.ok (keywordSearch allPosts a.query))) =
      semanticPhase (FetchPhase.mk allPosts postEmb c1 flag).cache a
        (FetchPhase.mk allPosts postEmb c1 flag).allPosts
        (FetchPhase.mk allPosts postEmb c1 flag).postEmb
    rw [if_neg (by simp [hp]), if_pos hm]

theorem semanticPhase_docsFail (c : Cache) (a : SearchArgs) (allPosts : List Post)
    (postEmb : Option (List Int)) (hne : allPosts ≠ [])
    (hnr : needRecompute postEmb (postTexts a.h2m allPosts) = true)
    (hdf : a.encodeDocsFail = true) :
    semanticPhase c a allPosts postEmb = (c, Except.error ()) := by
  unfold semanticPhase
  rw [if_neg (postTexts_ne_empty a.h2m allPosts hne)]
  have hee : ensureEmbeddings a.encodeDoc a.encodeDocsFail postEmb (postTexts a.h2m allPosts) =
      Except.error () := by
    rw [ensureEmbeddings_eq, if_pos hnr, if_pos hdf]
  rw [hee]

theorem semanticPhase_queryFail (c : Cache) (a : SearchArgs) (allPosts : List Post)
    (postEmb : Option (List Int)) (hne : allPosts ≠ [])
    (hqf : a.encodeQueryFail = true)
    (hnd : needRecompute postEmb (postTexts a.h2m allPosts) = true → a.encodeDocsFail = false) :
    semanticPhase c a allPosts postEmb =
      ((if needRecompute postEmb (postTexts a.h2m allPosts) = true then
          attachVectors c a.nid (postsForResults a.h2m allPosts)
            ((postTexts a.h2m allPosts).map a.encodeDoc) a.now
        else c), Except.error ()) := by
  unfold semanticPhase
  rw [if_neg (postTexts_ne_empty a.h2m allPosts hne)]
  by_cases hnr : needRecompute postEmb (postTexts a.h2m allPosts) = true
  · have hdf := hnd hnr
    have hee : ensureEmbeddings a.encodeDoc a.encodeDocsFail postEmb (postTexts a.h2m allPosts) =
        Except.ok ((postTexts a.h2m allPosts).map a.encodeDoc, true) := by
      rw [ensureEmbeddings_eq, if_pos hnr, if_neg (by simp [hdf])]
    rw [hee]
    simp [hqf, hnr]
  · have hee : ensureEmbeddings a.encodeDoc a.encodeDocsFail postEmb (postTexts a.h2m allPosts) =
        Except.ok (postEmb.getD [], false) := by
      rw [ensureEmbeddings_eq, if_neg hnr]
    rw [hee]
    simp [hqf, hnr]

/-- Claim C9 (amended): a failing encode call while the model is available
makes the search raise instead of completing via keyword fallback, and the
cache mutations already made are kept: a failing document-encode (which
runs exactly when a recompute is needed) escapes with the cache as the
fetch phase left it, the attach never happening; a failing query-encode
(reached when the document encode is skipped or succeeds) escapes with the
cache including the attach a successful recompute performed.  Availability
is an input, not state: any search run from the returned cache with the
model available still takes the semantic path — the downgrade is not
persisted. -/
theorem c9_encode_failure_amended (c : Cache) (a : SearchArgs)
    (hm : a.hasModel = true) (hq : a.query.isEmpty = false)
    (hp : (getOrFetch c a.nid a.hasModel a.now a.pages).allPosts.isEmpty = false) :
    (needRecompute (getOrFetch c a.nid a.hasModel a.now a.pages).postEmb
        (postTexts a.h2m (getOrFetch c a.nid a.hasModel a.now a.pages).allPosts) = true →
      a.encodeDocsFail = true →
      altSearch c a =
        ((getOrFetch c a.nid a.hasModel a.now a.pages).cache, Except.error ())) ∧
    (a.encodeQueryFail = true →
      (needRecompute (getOrFetch c a.nid a.hasModel a.now a.pages).postEmb
          (postTexts a.h2m (getOrFetch c a.nid a.hasModel a.now a.pages).allPosts) = true →
        a.encodeDocsFail = false) →
      altSearch c a =
        ((if needRecompute (getOrFetch c a.nid a.hasModel a.now a.pages).postEmb
              (postTexts a.h2m (getOrFetch c a.nid a.hasModel a.now a.pages).allPosts) = true then
            attachVectors (getOrFetch c a.nid a.hasModel a.now a.pages).cache a.nid
              (postsForResults a.h2m (getOrFetch c a.nid a.hasModel a.now a.pages).allPosts)
              ((postTexts a.h2m (getOrFetch c a.nid a.hasModel a.now a.pages).allPosts).map a.encodeDoc)
              a.now
          else (getOrFetch c a.nid a.hasModel a.now a.pages).cache), Except.error ())) ∧
    (∀ a2 : SearchArgs, a2.hasModel = true → a2.query.isEmpty = false →
      (getOrFetch (altSearch c a).1 a2.nid a2.hasModel a2.now a2.pages).allPosts.isEmpty = false →
      altSearch (altSearch c a).1 a2 =
        semanticPhase (getOrFetch (altSearch c a).1 a2.nid a2.hasModel a2.now a2.pages).cache a2
          (getOrFetch (altSearch c a).1 a2.nid a2.hasModel a2.now a2.pages).allPosts
          (getOrFetch (altSearch c a).1 a2.nid a2.hasModel a2.now a2.pages).postEmb) := by
  have hne : (getOrFetch c a.nid a.hasModel a.now a.pages).allPosts ≠ [] := by
    simpa [List.isEmpty_iff] using hp
  refine ⟨?_, ?_, ?_⟩
  · intro hnr hdf
    rw [altSearch_semantic c a hm hq hp]
    exact semanticPhase_docsFail _ a _ _ hne hnr hdf
  · intro hqf hnd
    rw [altSearch_semantic c a hm hq hp]
    exact semanticPhase_queryFail _ a _ _ hne hqf hnd
  · intro a2 hm2 hq2 hp2
    exact altSearch_semantic _ a2 hm2 hq2 hp2

/-- Witness for C9 (amended), exercising all three parts: a failing
document encode alone propagates and keeps the freshly fetched entry; a
failing query encode alone propagates and keeps the attach; and a later
search with the model available from the failure cache runs the semantic
phase (successfully here). -/
theorem c9_witness :
    altSearch [] ⟨2, ['q'], 0, [PageResult.ok [⟨5, ['e'], [], []⟩]], true, id, fun _ => 0, true, fun _ => 0, false⟩ =
      ([(2, ⟨[⟨5, ['e'], [], []⟩], none, 0⟩)], Except.error ()) ∧
    altSearch [] ⟨3, ['q'], 0, [PageResult.ok [⟨6, ['f'], [], []⟩]], true, id, fun _ => 0, false, fun _ => 0, true⟩ =
      ([(3, ⟨[⟨6, ['f'], [], []⟩], some [0], 0⟩)], Except.error ()) ∧
    altSearch [(2, ⟨[⟨5, ['e'], [], []⟩], none, 0⟩)]
        ⟨2, ['q'], 0, [], true, id, fun _ => 0, false, fun _ => 0, false⟩ =
      ([(2, ⟨[⟨5, ['e'], [], []⟩], some [0], 0⟩)], Except.ok [⟨5, ['e'], [], []⟩]) := by
  refine ⟨?_, ?_, ?_⟩
  · exact (c9_encode_failure_amended []
      ⟨2, ['q'], 0, [PageResult.ok [⟨5, ['e'], [], []⟩]], true, id, fun _ => 0, true, fun _ => 0, false⟩
      rfl rfl rfl).1 rfl rfl
  · exact (c9_encode_failure_amended []
      ⟨3, ['q'], 0, [PageResult.ok [⟨6, ['f'], [], []⟩]], true, id, fun _ => 0, false, fun _ => 0, true⟩
      rfl rfl rfl).2.1 rfl (fun _ => rfl)
  · exact (c9_encode_failure_amended []
      ⟨2, ['q'], 0, [PageResult.ok [⟨5, ['e'], [], []⟩]], true, id, fun _ => 0, true, fun _ => 0, false⟩
      rfl rfl rfl).2.2
      ⟨2, ['q'], 0, [], true, id, fun _ => 0, false, fun _ => 0, false⟩ rfl rfl rfl
